import Mathlib

/-!
Shallow embedding of the buzzdb buffer manager
(src/src/include/buffer/buffer_manager.h, header plus inline implementation).

Pages are identified by 64-bit ids; we model ids as `Nat` (no arithmetic on
them overflows in the modelled operations).  A `BufferFrame` mirrors the C++
class field by field; in addition the fields `heldExcl` and `sharedHolders`
instrument the state of the frame's `pageMutex` under the single-threaded
operational semantics (a `lockPage` always succeeds), so that the lock-state
preconditions of the disk calls can be stated.

Disk I/O is modelled by an event trace: each `readDisk`/`writeDisk` call of
the C++ code emits a `DiskEv` recording the page id together with the frame's
pin counter and exclusive-lock state at the moment of the call.  The bytes
read from disk come from a `disk : Nat → List Nat` parameter standing for the
segment-file contents (the `File` interface is external to the repository).
-/

namespace BuzzDB

/-- Mirrors C++ `class BufferFrame`: `pageId`, `pageSize`, `counter` (the pin
count, a signed 64-bit integer in the source, modelled as `Int`),
`mIsExclusive`, `mIsDirty`, and the `data` byte vector.  `heldExcl` and
`sharedHolders` instrument the `pageMutex` state. -/
structure BufferFrame where
  pageId : Nat
  pageSize : Nat
  counter : Int
  mIsExclusive : Bool
  mIsDirty : Bool
  data : List Nat
  heldExcl : Bool
  sharedHolders : Nat
  deriving DecidableEq, Repr

namespace BufferFrame

/-- `BufferFrame::BufferFrame(page_id, page_size, counter = 0,
is_exclusive = false, is_dirty = false)`: the data vector is resized to
`page_size` bytes of zero.  The mutex starts unheld. -/
def new (page_id page_size : Nat) : BufferFrame :=
  { pageId := page_id
    pageSize := page_size
    counter := 0
    mIsExclusive := false
    mIsDirty := false
    data := List.replicate page_size 0
    heldExcl := false
    sharedHolders := 0 }

/-- `counter++`. -/
def incCounter (f : BufferFrame) : BufferFrame :=
  { f with counter := f.counter + 1 }

/-- `counter--`. -/
def decCounter (f : BufferFrame) : BufferFrame :=
  { f with counter := f.counter - 1 }

/-- `lockPage(exclusive)`: takes `pageMutex` exclusively or shared, then sets
`mIsExclusive = exclusive`. -/
def lockPage (f : BufferFrame) (exclusive : Bool) : BufferFrame :=
  { f with
    mIsExclusive := exclusive
    heldExcl := if exclusive then true else f.heldExcl
    sharedHolders := if exclusive then f.sharedHolders else f.sharedHolders + 1 }

/-- `unlockPage(is_dirty)`: sets `mIsDirty = is_dirty` (a plain assignment in
the source), then releases the mutex exclusively or shared according to the
`mIsExclusive` flag. -/
def unlockPage (f : BufferFrame) (is_dirty : Bool) : BufferFrame :=
  { f with
    mIsDirty := is_dirty
    heldExcl := if f.mIsExclusive then false else f.heldExcl
    sharedHolders := if f.mIsExclusive then f.sharedHolders else f.sharedHolders - 1 }

end BufferFrame

/-- One disk call of the program: the page id of the frame on which
`readDisk`/`writeDisk` was invoked, together with the frame's pin counter and
exclusive-lock state at the moment of the call (instrumentation). -/
inductive DiskEv where
  | readDiskEv (pageId : Nat) (pinAtCall : Int) (exclHeldAtCall : Bool)
  | writeDiskEv (pageId : Nat) (pinAtCall : Int) (exclHeldAtCall : Bool)
  deriving DecidableEq, Repr

namespace BufferFrame

/-- `BufferFrame::readDisk()`: reads `pageSize` bytes for `pageId` from the
segment file into `data`.  `disk` stands for the external file contents. -/
def readDisk (disk : Nat → List Nat) (f : BufferFrame) : BufferFrame × DiskEv :=
  ({ f with data := disk f.pageId }, .readDiskEv f.pageId f.counter f.heldExcl)

/-- `BufferFrame::writeDisk()`: writes `data` back to the segment file.  Only
the event is recorded; no claim inspects the resulting file contents. -/
def writeDisk (f : BufferFrame) : DiskEv :=
  .writeDiskEv f.pageId f.counter f.heldExcl

end BufferFrame

/-- `std::map<uint64_t, BufferFrame*> bufferMapping`, modelled as an
association list with (invariantly) distinct keys. -/
abbrev Mapping := List (Nat × BufferFrame)

/-- `bufferMapping.find(id)` / `bufferMapping.at(id)` (first matching key). -/
def mapFind (m : Mapping) (id : Nat) : Option BufferFrame :=
  match m with
  | [] => none
  | (k, f) :: rest => if k = id then some f else mapFind rest id

/-- The key list of the mapping. -/
def keys (m : Mapping) : List Nat := m.map Prod.fst

/-- `bufferMapping.erase(id)`. -/
def mapErase (m : Mapping) (id : Nat) : Mapping :=
  m.filter (fun p => p.1 ≠ id)

/-- `bufferMapping.insert({id, f})`: `std::map::insert` is a no-op when the
key is already present. -/
def mapInsert (m : Mapping) (id : Nat) (f : BufferFrame) : Mapping :=
  if (mapFind m id).isSome then m else m ++ [(id, f)]

/-- Mutation of the frame a map entry points to (the C++ map stores a
`BufferFrame*`; updating through the pointer updates the mapped frame). -/
def mapUpdate (m : Mapping) (id : Nat) (g : BufferFrame → BufferFrame) : Mapping :=
  m.map (fun p => if p.1 = id then (p.1, g p.2) else p)

/-- The pin counter `bufferMapping.at(id)->getCounter()`.  `std::map::at`
throws for an absent key — unreachable under the pool invariant; an absent id
is given the nonzero counter 1 so that it is never selected as a victim. -/
def counterOf (m : Mapping) (id : Nat) : Int :=
  match mapFind m id with
  | some f => f.counter
  | none => 1

/-- `bufferMapping.at(id)` with an inert default (unreachable under the pool
invariant). -/
def frameOf (m : Mapping) (id : Nat) : BufferFrame :=
  (mapFind m id).getD (BufferFrame.new id 0)

/-- The scan loop of `BufferManager::getPageIndexToRemove` over one queue:
return the index and id of the first queue entry whose frame has counter 0
(entries with nonzero counter are skipped by `continue`). -/
def victimScan (m : Mapping) : List Nat → Option (Nat × Nat)
  | [] => none
  | id :: rest =>
    if counterOf m id = 0 then some (0, id)
    else (victimScan m rest).map (fun p => (p.1 + 1, p.2))

/-- Mirrors C++ `class BufferManager`: `pageSize`, `pageCount`, the two
queues, and the page-id map (mutexes are not state). -/
structure BufferManager where
  pageSize : Nat
  pageCount : Nat
  fifoQueue : List Nat
  lruQueue : List Nat
  bufferMapping : Mapping
  deriving DecidableEq, Repr

namespace BufferManager

/-- `BufferManager::BufferManager(page_size, page_count)`: both queues and
the map start empty. -/
def new (page_size page_count : Nat) : BufferManager :=
  { pageSize := page_size
    pageCount := page_count
    fifoQueue := []
    lruQueue := []
    bufferMapping := [] }

/-- `BufferManager::getPageIndexToRemove(isFifo)`: scan the chosen queue for
the first entry with counter 0; on success call `writeDisk()` on that frame
(unconditionally — the source does not test the dirty flag) and return the
index; otherwise return -1 (modelled as `none`). -/
def getPageIndexToRemove (bm : BufferManager) (isFifo : Bool) :
    Option Nat × List DiskEv :=
  let q := if isFifo then bm.fifoQueue else bm.lruQueue
  match victimScan bm.bufferMapping q with
  | some (i, v) => (some i, [(frameOf bm.bufferMapping v).writeDisk])
  | none => (none, [])

/-- `BufferManager::removePage(page_id, indexToRemove, exclusive, isFifo)`:
allocate a fresh frame for `page_id` with counter bumped to 1; erase the
victim (the queue entry at `indexToRemove`) from the map and from its queue;
insert the new frame into the map and push `page_id` onto the FIFO tail (in
both branches); then lock the new frame in the requested mode and read its
bytes from disk. -/
def removePage (disk : Nat → List Nat) (bm : BufferManager) (page_id : Nat)
    (indexToRemove : Nat) (exclusive : Bool) (isFifo : Bool) :
    BufferManager × List DiskEv :=
  let f0 := (BufferFrame.new page_id bm.pageSize).incCounter
  let f1 := f0.lockPage exclusive
  let fe := f1.readDisk disk
  if isFifo then
    let victim := bm.fifoQueue.getD indexToRemove 0
    ({ bm with
        bufferMapping := mapInsert (mapErase bm.bufferMapping victim) page_id fe.1
        fifoQueue := bm.fifoQueue.eraseIdx indexToRemove ++ [page_id] },
      [fe.2])
  else
    let victim := bm.lruQueue.getD indexToRemove 0
    ({ bm with
        bufferMapping := mapInsert (mapErase bm.bufferMapping victim) page_id fe.1
        lruQueue := bm.lruQueue.eraseIdx indexToRemove
        fifoQueue := bm.fifoQueue ++ [page_id] },
      [fe.2])

/-- `BufferManager::updateExistingPage(page_id, exclusive)`: bump the mapped
frame's counter; if `page_id` is in the LRU queue erase it there, otherwise
erase it from the FIFO queue; push it onto the LRU tail; lock the frame in
the requested mode.  No disk call. -/
def updateExistingPage (bm : BufferManager) (page_id : Nat) (exclusive : Bool) :
    BufferManager :=
  let m := mapUpdate bm.bufferMapping page_id
    (fun f => (f.incCounter).lockPage exclusive)
  if page_id ∈ bm.lruQueue then
    { bm with
        bufferMapping := m
        lruQueue := bm.lruQueue.erase page_id ++ [page_id] }
  else
    { bm with
        bufferMapping := m
        fifoQueue := bm.fifoQueue.erase page_id
        lruQueue := bm.lruQueue ++ [page_id] }

/-- `BufferManager::addNewPage(page_id, exclusive)`: allocate a fresh frame
with counter bumped to 1, insert it into the map, push `page_id` onto the
FIFO tail, lock the frame in the requested mode, and read from disk. -/
def addNewPage (disk : Nat → List Nat) (bm : BufferManager) (page_id : Nat)
    (exclusive : Bool) : BufferManager × List DiskEv :=
  let f0 := (BufferFrame.new page_id bm.pageSize).incCounter
  let f1 := f0.lockPage exclusive
  let fe := f1.readDisk disk
  ({ bm with
      bufferMapping := mapInsert bm.bufferMapping page_id fe.1
      fifoQueue := bm.fifoQueue ++ [page_id] },
    [fe.2])

end BufferManager

/-- Result of `fix_page`: whether `buffer_full_error` was thrown, the pool
state afterwards, and the disk calls made. -/
structure FixOut where
  bufferFull : Bool
  state : BufferManager
  events : List DiskEv
  deriving DecidableEq, Repr

namespace BufferManager

/-- `BufferManager::fix_page(page_id, exclusive)`: hit → `updateExistingPage`;
miss with `bufferMapping.size() != pageCount` → `addNewPage`; otherwise try a
FIFO victim, then an LRU victim, via `getPageIndexToRemove`/`removePage`;
if both scans fail, throw `buffer_full_error`. -/
def fix_page (disk : Nat → List Nat) (bm : BufferManager) (page_id : Nat)
    (exclusive : Bool) : FixOut :=
  if (mapFind bm.bufferMapping page_id).isSome then
    { bufferFull := false
      state := bm.updateExistingPage page_id exclusive
      events := [] }
  else if bm.bufferMapping.length ≠ bm.pageCount then
    let r := bm.addNewPage disk page_id exclusive
    { bufferFull := false, state := r.1, events := r.2 }
  else
    match bm.getPageIndexToRemove true with
    | (some i, evs) =>
      let r := bm.removePage disk page_id i exclusive true
      { bufferFull := false, state := r.1, events := evs ++ r.2 }
    | (none, _) =>
      match bm.getPageIndexToRemove false with
      | (some i, evs) =>
        let r := bm.removePage disk page_id i exclusive false
        { bufferFull := false, state := r.1, events := evs ++ r.2 }
      | (none, _) => { bufferFull := true, state := bm, events := [] }

/-- `BufferManager::unfix_page(page, is_dirty)` for a frame of this pool,
identified by its page id: `decCounter`, `unlockPage(is_dirty)`, then — when
the id is in the LRU queue — erase it there and push it onto the LRU tail. -/
def unfix_page (bm : BufferManager) (page_id : Nat) (is_dirty : Bool) :
    BufferManager :=
  let m := mapUpdate bm.bufferMapping page_id
    (fun f => (f.decCounter).unlockPage is_dirty)
  if page_id ∈ bm.lruQueue then
    { bm with
        bufferMapping := m
        lruQueue := bm.lruQueue.erase page_id ++ [page_id] }
  else
    { bm with bufferMapping := m }

end BufferManager

/-- One public pool operation. -/
inductive Op where
  | fixOp (page_id : Nat) (exclusive : Bool)
  | unfixOp (page_id : Nat) (is_dirty : Bool)
  deriving DecidableEq, Repr

/-- Apply one operation to the pool state (events discarded). -/
def runOp (disk : Nat → List Nat) (bm : BufferManager) : Op → BufferManager
  | .fixOp id e => (bm.fix_page disk id e).state
  | .unfixOp id d => bm.unfix_page id d

/-- Apply a sequence of operations from left to right. -/
def runOps (disk : Nat → List Nat) (bm : BufferManager) (ops : List Op) :
    BufferManager :=
  ops.foldl (runOp disk) bm

/-- The pool invariant: at most `pageCount` map entries; distinct map keys;
the concatenation of the two queues has no duplicate; queue ids and map keys
coincide. -/
def Inv (bm : BufferManager) : Prop :=
  bm.bufferMapping.length ≤ bm.pageCount ∧
  (keys bm.bufferMapping).Nodup ∧
  (bm.fifoQueue ++ bm.lruQueue).Nodup ∧
  (∀ id ∈ bm.fifoQueue ++ bm.lruQueue, id ∈ keys bm.bufferMapping) ∧
  (∀ id ∈ keys bm.bufferMapping, id ∈ bm.fifoQueue ++ bm.lruQueue)

instance (bm : BufferManager) : Decidable (Inv bm) := by
  unfold Inv; infer_instance

/-- An external segment-file whose every page reads as empty; used as the
concrete `disk` argument of witnesses and counterexamples. -/
def diskZero : Nat → List Nat := fun _ => []

/-- The pool of spec scenario 1 scaled to one frame: `page_size` 4,
`page_count` 1, after `Fix(1, shared); Unfix(1, clean)`: page 1 resident,
unpinned, clean. -/
def cleanPool : BufferManager :=
  runOps diskZero (BufferManager.new 4 1) [.fixOp 1 false, .unfixOp 1 false]


/-! ### Association-list lemmas -/

theorem mapFind_eq_none_iff (m : Mapping) (id : Nat) :
    mapFind m id = none ↔ id ∉ keys m := by
  induction m with
  | nil => simp [mapFind, keys]
  | cons p rest ih =>
    obtain ⟨k, f⟩ := p
    by_cases hk : k = id
    · subst hk; simp [mapFind, keys]
    · simp only [mapFind, if_neg hk, keys, List.map_cons, List.mem_cons, ih]
      constructor
      · intro h hc
        rcases hc with hc | hc
        · exact hk hc.symm
        · exact h hc
      · intro h hc
        exact h (Or.inr hc)

theorem mapFind_isSome_iff (m : Mapping) (id : Nat) :
    (mapFind m id).isSome ↔ id ∈ keys m := by
  rw [Option.isSome_iff_ne_none, not_iff_comm, ← mapFind_eq_none_iff]

theorem mapFind_cons (k : Nat) (f : BufferFrame) (rest : Mapping) (id : Nat) :
    mapFind ((k, f) :: rest) id = if k = id then some f else mapFind rest id :=
  rfl

theorem mapUpdate_cons (k : Nat) (f : BufferFrame) (rest : Mapping) (id : Nat)
    (g : BufferFrame → BufferFrame) :
    mapUpdate ((k, f) :: rest) id g =
      (if k = id then (k, g f) else (k, f)) :: mapUpdate rest id g := by
  by_cases hk : k = id <;> simp [mapUpdate, hk]

theorem mapErase_cons (k : Nat) (f : BufferFrame) (rest : Mapping) (id : Nat) :
    mapErase ((k, f) :: rest) id =
      if k = id then mapErase rest id else (k, f) :: mapErase rest id := by
  by_cases hk : k = id <;> simp [mapErase, hk]

theorem keys_mapUpdate (m : Mapping) (id : Nat) (g : BufferFrame → BufferFrame) :
    keys (mapUpdate m id g) = keys m := by
  induction m with
  | nil => rfl
  | cons p rest ih =>
    obtain ⟨k, f⟩ := p
    rw [mapUpdate_cons]
    by_cases hk : k = id <;> simp [hk, keys] at ih ⊢ <;> exact ih

theorem length_mapUpdate (m : Mapping) (id : Nat) (g : BufferFrame → BufferFrame) :
    (mapUpdate m id g).length = m.length := by
  simp [mapUpdate]

theorem mapFind_mapUpdate_self (m : Mapping) (id : Nat)
    (g : BufferFrame → BufferFrame) :
    mapFind (mapUpdate m id g) id = (mapFind m id).map g := by
  induction m with
  | nil => rfl
  | cons p rest ih =>
    obtain ⟨k, f⟩ := p
    rw [mapUpdate_cons]
    by_cases hk : k = id
    · subst hk; simp [mapFind_cons]
    · simp [mapFind_cons, hk, ih]

theorem mapFind_mapUpdate_ne (m : Mapping) (id x : Nat)
    (g : BufferFrame → BufferFrame) (hx : x ≠ id) :
    mapFind (mapUpdate m id g) x = mapFind m x := by
  induction m with
  | nil => rfl
  | cons p rest ih =>
    obtain ⟨k, f⟩ := p
    rw [mapUpdate_cons]
    by_cases hk : k = id
    · subst hk
      have : k ≠ x := fun h => hx h.symm
      simp [mapFind_cons, this, ih]
    · by_cases hkx : k = x <;> simp [mapFind_cons, hk, hkx, hx, ih]

theorem keys_mapErase (m : Mapping) (id : Nat) :
    keys (mapErase m id) = (keys m).filter (fun x => x ≠ id) := by
  induction m with
  | nil => rfl
  | cons p rest ih =>
    obtain ⟨k, f⟩ := p
    rw [mapErase_cons]
    by_cases hk : k = id <;> simp [hk, keys] at ih ⊢ <;> exact ih

theorem mem_keys_mapErase (m : Mapping) (id x : Nat) :
    x ∈ keys (mapErase m id) ↔ x ∈ keys m ∧ x ≠ id := by
  rw [keys_mapErase]; simp [List.mem_filter]

theorem nodup_keys_mapErase (m : Mapping) (id : Nat)
    (h : (keys m).Nodup) : (keys (mapErase m id)).Nodup := by
  rw [keys_mapErase]; exact h.filter _

theorem mapFind_mapErase_self (m : Mapping) (id : Nat) :
    mapFind (mapErase m id) id = none := by
  induction m with
  | nil => rfl
  | cons p rest ih =>
    obtain ⟨k, f⟩ := p
    rw [mapErase_cons]
    by_cases hk : k = id <;> simp [mapFind_cons, hk, ih]

theorem mapFind_mapErase_ne (m : Mapping) (id x : Nat) (hx : x ≠ id) :
    mapFind (mapErase m id) x = mapFind m x := by
  induction m with
  | nil => rfl
  | cons p rest ih =>
    obtain ⟨k, f⟩ := p
    rw [mapErase_cons]
    by_cases hk : k = id
    · subst hk
      have : k ≠ x := fun h => hx h.symm
      simp [mapFind_cons, this, ih]
    · by_cases hkx : k = x <;> simp [mapFind_cons, hk, hkx, hx, ih]

theorem mapErase_of_not_mem (m : Mapping) (id : Nat) (h : id ∉ keys m) :
    mapErase m id = m := by
  unfold mapErase
  apply List.filter_eq_self.mpr
  intro p hp
  simp only [decide_eq_true_eq]
  intro he
  exact h (by simpa [keys, he] using List.mem_map_of_mem Prod.fst hp)

theorem length_mapErase_add_one (m : Mapping) (id : Nat)
    (hnd : (keys m).Nodup) (hmem : id ∈ keys m) :
    (mapErase m id).length + 1 = m.length := by
  induction m with
  | nil => simp [keys] at hmem
  | cons p rest ih =>
    obtain ⟨k, f⟩ := p
    simp only [keys, List.map_cons, List.nodup_cons] at hnd
    rw [mapErase_cons]
    by_cases hk : k = id
    · subst hk
      rw [if_pos rfl, mapErase_of_not_mem rest k hnd.1]
      simp
    · simp only [keys, List.map_cons, List.mem_cons] at hmem
      rcases hmem with rfl | hmem
      · exact absurd rfl hk
      · have := ih hnd.2 hmem
        simp [hk]
        omega

theorem mapInsert_of_not_mem (m : Mapping) (id : Nat) (f : BufferFrame)
    (h : id ∉ keys m) : mapInsert m id f = m ++ [(id, f)] := by
  unfold mapInsert
  rw [if_neg]
  simp [mapFind_isSome_iff, h]

theorem keys_append (m1 m2 : Mapping) : keys (m1 ++ m2) = keys m1 ++ keys m2 := by
  simp [keys]

theorem mapFind_append (m1 m2 : Mapping) (x : Nat) :
    mapFind (m1 ++ m2) x =
      match mapFind m1 x with
      | some f => some f
      | none => mapFind m2 x := by
  induction m1 with
  | nil => simp [mapFind]
  | cons p rest ih =>
    obtain ⟨k, f⟩ := p
    by_cases hk : k = x <;> simp [mapFind, hk, ih]

/-! ### Victim-scan lemmas -/

theorem victimScan_cons (m : Mapping) (a : Nat) (rest : List Nat) :
    victimScan m (a :: rest) =
      if counterOf m a = 0 then some (0, a)
      else (victimScan m rest).map (fun p => (p.1 + 1, p.2)) :=
  rfl

theorem victimScan_cons_step (m : Mapping) (a : Nat) (rest : List Nat)
    (i v : Nat) (ha : ¬counterOf m a = 0)
    (h : victimScan m (a :: rest) = some (i, v)) :
    ∃ i', victimScan m rest = some (i', v) ∧ i = i' + 1 := by
  rw [victimScan_cons, if_neg ha] at h
  cases hs : victimScan m rest with
  | none => rw [hs] at h; simp at h
  | some p =>
    rw [hs] at h
    simp only [Option.map_some'] at h
    have hp := Option.some.inj h
    refine ⟨p.1, ?_, ?_⟩
    · have h2 : p.2 = v := congrArg Prod.snd hp
      rw [← h2, Prod.mk.eta]
    · have h1 : p.1 + 1 = i := congrArg Prod.fst hp
      omega

theorem victimScan_some (m : Mapping) (q : List Nat) (i v : Nat)
    (h : victimScan m q = some (i, v)) :
    i < q.length ∧ q.getD i 0 = v ∧ counterOf m v = 0 := by
  induction q generalizing i with
  | nil => simp [victimScan] at h
  | cons a rest ih =>
    by_cases ha : counterOf m a = 0
    · rw [victimScan_cons, if_pos ha] at h
      injection h with h
      rw [Prod.mk.injEq] at h
      obtain ⟨rfl, rfl⟩ := h
      exact ⟨by simp, rfl, ha⟩
    · obtain ⟨i', hscan, rfl⟩ := victimScan_cons_step m a rest i v ha h
      obtain ⟨h1, h2, h3⟩ := ih i' hscan
      exact ⟨by simpa using h1, h2, h3⟩

theorem victimScan_min (m : Mapping) (q : List Nat) (i v : Nat)
    (h : victimScan m q = some (i, v)) :
    ∀ j, j < i → counterOf m (q.getD j 0) ≠ 0 := by
  induction q generalizing i with
  | nil => simp [victimScan] at h
  | cons a rest ih =>
    by_cases ha : counterOf m a = 0
    · rw [victimScan_cons, if_pos ha] at h
      injection h with h
      rw [Prod.mk.injEq] at h
      obtain ⟨rfl, rfl⟩ := h
      intro j hj; omega
    · obtain ⟨i', hscan, rfl⟩ := victimScan_cons_step m a rest i v ha h
      intro j hj
      match j with
      | 0 => exact ha
      | j' + 1 => exact ih i' hscan j' (by omega)

theorem victimScan_eq_none_iff (m : Mapping) (q : List Nat) :
    victimScan m q = none ↔ ∀ id ∈ q, counterOf m id ≠ 0 := by
  induction q with
  | nil => simp [victimScan]
  | cons a rest ih =>
    by_cases ha : counterOf m a = 0 <;>
      simp [victimScan_cons, ha, ih]

theorem victimScan_mem (m : Mapping) (q : List Nat) (i v : Nat)
    (h : victimScan m q = some (i, v)) : v ∈ q := by
  obtain ⟨h1, h2, _⟩ := victimScan_some m q i v h
  rw [← h2, List.getD_eq_getElem _ _ h1]
  exact List.getElem_mem h1

theorem victimScan_eraseIdx (m : Mapping) (q : List Nat) (i v : Nat)
    (h : victimScan m q = some (i, v)) :
    q.eraseIdx i = q.erase v := by
  induction q generalizing i with
  | nil => simp [victimScan] at h
  | cons a rest ih =>
    by_cases ha : counterOf m a = 0
    · rw [victimScan_cons, if_pos ha] at h
      injection h with h
      rw [Prod.mk.injEq] at h
      obtain ⟨rfl, rfl⟩ := h
      simp [List.eraseIdx, List.erase_cons]
    · obtain ⟨i', hscan, rfl⟩ := victimScan_cons_step m a rest i v ha h
      have hvz : counterOf m v = 0 := (victimScan_some m rest i' v hscan).2.2
      have hav : a ≠ v := fun he => ha (he ▸ hvz)
      simp [List.eraseIdx, List.erase_cons, hav, ih i' hscan]

/-! ### Path lemmas for `fix_page` -/

theorem getPageIndexToRemove_fifo_some (bm : BufferManager) (i v : Nat)
    (h : victimScan bm.bufferMapping bm.fifoQueue = some (i, v)) :
    bm.getPageIndexToRemove true =
      (some i, [(frameOf bm.bufferMapping v).writeDisk]) := by
  unfold BufferManager.getPageIndexToRemove
  simp [h]

theorem getPageIndexToRemove_fifo_none (bm : BufferManager)
    (h : victimScan bm.bufferMapping bm.fifoQueue = none) :
    bm.getPageIndexToRemove true = (none, []) := by
  unfold BufferManager.getPageIndexToRemove
  simp [h]

theorem getPageIndexToRemove_lru_some (bm : BufferManager) (i v : Nat)
    (h : victimScan bm.bufferMapping bm.lruQueue = some (i, v)) :
    bm.getPageIndexToRemove false =
      (some i, [(frameOf bm.bufferMapping v).writeDisk]) := by
  unfold BufferManager.getPageIndexToRemove
  simp [h]

theorem getPageIndexToRemove_lru_none (bm : BufferManager)
    (h : victimScan bm.bufferMapping bm.lruQueue = none) :
    bm.getPageIndexToRemove false = (none, []) := by
  unfold BufferManager.getPageIndexToRemove
  simp [h]

theorem fix_page_hit (disk : Nat → List Nat) (bm : BufferManager)
    (p : Nat) (e : Bool) (h : (mapFind bm.bufferMapping p).isSome) :
    bm.fix_page disk p e =
      { bufferFull := false, state := bm.updateExistingPage p e, events := [] } := by
  unfold BufferManager.fix_page
  rw [if_pos h]

theorem fix_page_add (disk : Nat → List Nat) (bm : BufferManager)
    (p : Nat) (e : Bool) (h1 : mapFind bm.bufferMapping p = none)
    (h2 : bm.bufferMapping.length ≠ bm.pageCount) :
    bm.fix_page disk p e =
      { bufferFull := false
        state := (bm.addNewPage disk p e).1
        events := (bm.addNewPage disk p e).2 } := by
  unfold BufferManager.fix_page
  rw [if_neg (by simp [h1]), if_pos h2]

theorem fix_page_evict_fifo (disk : Nat → List Nat) (bm : BufferManager)
    (p : Nat) (e : Bool) (i v : Nat)
    (h1 : mapFind bm.bufferMapping p = none)
    (h2 : bm.bufferMapping.length = bm.pageCount)
    (hscan : victimScan bm.bufferMapping bm.fifoQueue = some (i, v)) :
    bm.fix_page disk p e =
      { bufferFull := false
        state := (bm.removePage disk p i e true).1
        events := (frameOf bm.bufferMapping v).writeDisk ::
          (bm.removePage disk p i e true).2 } := by
  unfold BufferManager.fix_page
  rw [if_neg (by simp [h1]), if_neg (by simp [h2]),
    getPageIndexToRemove_fifo_some bm i v hscan]
  rfl

theorem fix_page_evict_lru (disk : Nat → List Nat) (bm : BufferManager)
    (p : Nat) (e : Bool) (i v : Nat)
    (h1 : mapFind bm.bufferMapping p = none)
    (h2 : bm.bufferMapping.length = bm.pageCount)
    (hscanF : victimScan bm.bufferMapping bm.fifoQueue = none)
    (hscanL : victimScan bm.bufferMapping bm.lruQueue = some (i, v)) :
    bm.fix_page disk p e =
      { bufferFull := false
        state := (bm.removePage disk p i e false).1
        events := (frameOf bm.bufferMapping v).writeDisk ::
          (bm.removePage disk p i e false).2 } := by
  unfold BufferManager.fix_page
  rw [if_neg (by simp [h1]), if_neg (by simp [h2]),
    getPageIndexToRemove_fifo_none bm hscanF,
    getPageIndexToRemove_lru_some bm i v hscanL]
  rfl

theorem fix_page_full (disk : Nat → List Nat) (bm : BufferManager)
    (p : Nat) (e : Bool)
    (h1 : mapFind bm.bufferMapping p = none)
    (h2 : bm.bufferMapping.length = bm.pageCount)
    (hscanF : victimScan bm.bufferMapping bm.fifoQueue = none)
    (hscanL : victimScan bm.bufferMapping bm.lruQueue = none) :
    bm.fix_page disk p e = { bufferFull := true, state := bm, events := [] } := by
  unfold BufferManager.fix_page
  rw [if_neg (by simp [h1]), if_neg (by simp [h2]),
    getPageIndexToRemove_fifo_none bm hscanF,
    getPageIndexToRemove_lru_none bm hscanL]

/-! ### Queue permutation helpers -/

theorem perm_refresh_right (l1 l2 : List Nat) (p : Nat) (h : p ∈ l2) :
    (l1 ++ (l2.erase p ++ [p])).Perm (l1 ++ l2) := by
  apply List.Perm.append_left
  exact (List.perm_append_singleton p (l2.erase p)).trans
    (List.perm_cons_erase h).symm

theorem perm_promote (l1 l2 : List Nat) (p : Nat) (h : p ∈ l1) :
    (l1.erase p ++ (l2 ++ [p])).Perm (l1 ++ l2) := by
  have s1 : (l1.erase p ++ (l2 ++ [p])).Perm (l1.erase p ++ (p :: l2)) :=
    List.Perm.append_left _ (List.perm_append_singleton p l2)
  have s2 : l1.erase p ++ (p :: l2) = (l1.erase p ++ [p]) ++ l2 := by simp
  have s3 : ((l1.erase p ++ [p]) ++ l2).Perm ((p :: l1.erase p) ++ l2) :=
    List.Perm.append_right _ (List.perm_append_singleton p (l1.erase p))
  have s4 : ((p :: l1.erase p) ++ l2).Perm (l1 ++ l2) :=
    List.Perm.append_right _ (List.perm_cons_erase h).symm
  exact s1.trans (s2 ▸ (s3.trans s4))

theorem perm_push_front (l1 l2 : List Nat) (p : Nat) :
    ((l1 ++ [p]) ++ l2).Perm (p :: (l1 ++ l2)) :=
  List.Perm.append_right _ (List.perm_append_singleton p l1)

/-! ### Invariant preservation -/

theorem Inv_updateExistingPage (bm : BufferManager) (p : Nat) (e : Bool)
    (hInv : Inv bm) (hmem : p ∈ keys bm.bufferMapping) :
    Inv (bm.updateExistingPage p e) := by
  obtain ⟨hlen, hknd, hqnd, hq2k, hk2q⟩ := hInv
  have hpq : p ∈ bm.fifoQueue ++ bm.lruQueue := hk2q p hmem
  simp only [BufferManager.updateExistingPage]
  by_cases hl : p ∈ bm.lruQueue
  · rw [if_pos hl]
    have hperm := perm_refresh_right bm.fifoQueue bm.lruQueue p hl
    refine ⟨?_, ?_, ?_, ?_, ?_⟩
    · simpa [length_mapUpdate] using hlen
    · simpa [keys_mapUpdate] using hknd
    · exact hperm.nodup_iff.mpr hqnd
    · intro id hid
      simp only [keys_mapUpdate]
      exact hq2k id (hperm.mem_iff.mp hid)
    · intro id hid
      simp only [keys_mapUpdate] at hid
      exact hperm.mem_iff.mpr (hk2q id hid)
  · rw [if_neg hl]
    have hf : p ∈ bm.fifoQueue := by
      rcases List.mem_append.mp hpq with h | h
      · exact h
      · exact absurd h hl
    have hperm := perm_promote bm.fifoQueue bm.lruQueue p hf
    refine ⟨?_, ?_, ?_, ?_, ?_⟩
    · simpa [length_mapUpdate] using hlen
    · simpa [keys_mapUpdate] using hknd
    · exact hperm.nodup_iff.mpr hqnd
    · intro id hid
      simp only [keys_mapUpdate]
      exact hq2k id (hperm.mem_iff.mp hid)
    · intro id hid
      simp only [keys_mapUpdate] at hid
      exact hperm.mem_iff.mpr (hk2q id hid)

theorem keys_singleton (p : Nat) (f : BufferFrame) : keys [(p, f)] = [p] := rfl

theorem Inv_addNewPage (disk : Nat → List Nat) (bm : BufferManager)
    (p : Nat) (e : Bool) (hInv : Inv bm)
    (hmiss : mapFind bm.bufferMapping p = none)
    (hlt : bm.bufferMapping.length < bm.pageCount) :
    Inv (bm.addNewPage disk p e).1 := by
  obtain ⟨hlen, hknd, hqnd, hq2k, hk2q⟩ := hInv
  have hpk : p ∉ keys bm.bufferMapping := (mapFind_eq_none_iff _ _).mp hmiss
  have hpq : p ∉ bm.fifoQueue ++ bm.lruQueue := fun h => hpk (hq2k p h)
  have hperm := perm_push_front bm.fifoQueue bm.lruQueue p
  simp only [BufferManager.addNewPage]
  rw [mapInsert_of_not_mem _ _ _ hpk]
  refine ⟨?_, ?_, ?_, ?_, ?_⟩
  · show (bm.bufferMapping ++ [(p, _)]).length ≤ bm.pageCount
    rw [List.length_append]
    simpa using hlt
  · show (keys (bm.bufferMapping ++ [(p, _)])).Nodup
    rw [keys_append, keys_singleton]
    exact List.nodup_append.mpr ⟨hknd, List.nodup_singleton p,
      List.disjoint_singleton.mpr hpk⟩
  · exact hperm.nodup_iff.mpr (List.nodup_cons.mpr ⟨hpq, hqnd⟩)
  · intro id hid
    show id ∈ keys (bm.bufferMapping ++ [(p, _)])
    rw [keys_append, keys_singleton]
    have := hperm.mem_iff.mp hid
    rcases List.mem_cons.mp this with rfl | hold
    · exact List.mem_append_right _ (List.mem_singleton.mpr rfl)
    · exact List.mem_append_left _ (hq2k id hold)
  · intro id hid
    have hid2 : id ∈ keys bm.bufferMapping ++ [p] := by
      have : id ∈ keys (bm.bufferMapping ++ [(p, _)]) := hid
      rwa [keys_append, keys_singleton] at this
    apply hperm.mem_iff.mpr
    rcases List.mem_append.mp hid2 with hold | hp
    · exact List.mem_cons_of_mem _ (hk2q id hold)
    · rw [List.mem_singleton.mp hp]
      exact List.mem_cons_self _ _

theorem Inv_removePage_fifo (disk : Nat → List Nat) (bm : BufferManager)
    (p : Nat) (e : Bool) (i v : Nat) (hInv : Inv bm)
    (hmiss : mapFind bm.bufferMapping p = none)
    (hscan : victimScan bm.bufferMapping bm.fifoQueue = some (i, v)) :
    Inv (bm.removePage disk p i e true).1 := by
  obtain ⟨hlen, hknd, hqnd, hq2k, hk2q⟩ := hInv
  obtain ⟨hilt, hgetD, hcnt⟩ := victimScan_some _ _ _ _ hscan
  have hvf : v ∈ bm.fifoQueue := victimScan_mem _ _ _ _ hscan
  have hvk : v ∈ keys bm.bufferMapping := hq2k v (List.mem_append_left _ hvf)
  have hpk : p ∉ keys bm.bufferMapping := (mapFind_eq_none_iff _ _).mp hmiss
  have hpq : p ∉ bm.fifoQueue ++ bm.lruQueue := fun h => hpk (hq2k p h)
  have hfnd : bm.fifoQueue.Nodup := (List.nodup_append.mp hqnd).1
  have hdisj : List.Disjoint bm.fifoQueue bm.lruQueue :=
    (List.nodup_append.mp hqnd).2.2
  have hvnl : v ∉ bm.lruQueue := fun h => hdisj hvf h
  have hpke : p ∉ keys (mapErase bm.bufferMapping v) := by
    rw [mem_keys_mapErase]; tauto
  have hsub : (bm.fifoQueue.erase v ++ bm.lruQueue).Sublist
      (bm.fifoQueue ++ bm.lruQueue) :=
    (List.erase_sublist v _).append (List.Sublist.refl _)
  have hperm := perm_push_front (bm.fifoQueue.erase v) bm.lruQueue p
  have hle := length_mapErase_add_one bm.bufferMapping v hknd hvk
  simp only [BufferManager.removePage]
  rw [if_pos trivial, hgetD, victimScan_eraseIdx _ _ _ _ hscan,
    mapInsert_of_not_mem _ _ _ hpke]
  refine ⟨?_, ?_, ?_, ?_, ?_⟩
  · show (mapErase bm.bufferMapping v ++ [(p, _)]).length ≤ bm.pageCount
    rw [List.length_append]
    simp only [List.length_singleton]
    omega
  · show (keys (mapErase bm.bufferMapping v ++ [(p, _)])).Nodup
    rw [keys_append, keys_singleton]
    exact List.nodup_append.mpr ⟨nodup_keys_mapErase _ _ hknd,
      List.nodup_singleton p, List.disjoint_singleton.mpr hpke⟩
  · refine hperm.nodup_iff.mpr (List.nodup_cons.mpr ⟨?_, hqnd.sublist hsub⟩)
    exact fun h => hpq (hsub.subset h)
  · intro id hid
    show id ∈ keys (mapErase bm.bufferMapping v ++ [(p, _)])
    rw [keys_append, keys_singleton]
    rcases List.mem_append.mp hid with hfp | hlru
    · rcases List.mem_append.mp hfp with hfe | hp
      · obtain ⟨hne, hf⟩ := hfnd.mem_erase_iff.mp hfe
        exact List.mem_append_left _
          ((mem_keys_mapErase _ _ _).mpr ⟨hq2k id (List.mem_append_left _ hf), hne⟩)
      · exact List.mem_append_right _ hp
    · have hne : id ≠ v := fun he => hvnl (he ▸ hlru)
      exact List.mem_append_left _
        ((mem_keys_mapErase _ _ _).mpr ⟨hq2k id (List.mem_append_right _ hlru), hne⟩)
  · intro id hid
    have hid2 : id ∈ keys (mapErase bm.bufferMapping v) ++ [p] := by
      have : id ∈ keys (mapErase bm.bufferMapping v ++ [(p, _)]) := hid
      rwa [keys_append, keys_singleton] at this
    rcases List.mem_append.mp hid2 with he | hp
    · obtain ⟨hkm, hne⟩ := (mem_keys_mapErase _ _ _).mp he
      rcases List.mem_append.mp (hk2q id hkm) with hf | hlru
      · exact List.mem_append_left _
          (List.mem_append_left _ (hfnd.mem_erase_iff.mpr ⟨hne, hf⟩))
      · exact List.mem_append_right _ hlru
    · rw [List.mem_singleton.mp hp]
      exact List.mem_append_left _ (List.mem_append_right _ (List.mem_singleton.mpr rfl))

theorem Inv_removePage_lru (disk : Nat → List Nat) (bm : BufferManager)
    (p : Nat) (e : Bool) (i v : Nat) (hInv : Inv bm)
    (hmiss : mapFind bm.bufferMapping p = none)
    (hscan : victimScan bm.bufferMapping bm.lruQueue = some (i, v)) :
    Inv (bm.removePage disk p i e false).1 := by
  obtain ⟨hlen, hknd, hqnd, hq2k, hk2q⟩ := hInv
  obtain ⟨hilt, hgetD, hcnt⟩ := victimScan_some _ _ _ _ hscan
  have hvl : v ∈ bm.lruQueue := victimScan_mem _ _ _ _ hscan
  have hvk : v ∈ keys bm.bufferMapping := hq2k v (List.mem_append_right _ hvl)
  have hpk : p ∉ keys bm.bufferMapping := (mapFind_eq_none_iff _ _).mp hmiss
  have hpq : p ∉ bm.fifoQueue ++ bm.lruQueue := fun h => hpk (hq2k p h)
  have hlnd : bm.lruQueue.Nodup := (List.nodup_append.mp hqnd).2.1
  have hdisj : List.Disjoint bm.fifoQueue bm.lruQueue :=
    (List.nodup_append.mp hqnd).2.2
  have hvnf : v ∉ bm.fifoQueue := fun h => hdisj h hvl
  have hpke : p ∉ keys (mapErase bm.bufferMapping v) := by
    rw [mem_keys_mapErase]; tauto
  have hsub : (bm.fifoQueue ++ bm.lruQueue.erase v).Sublist
      (bm.fifoQueue ++ bm.lruQueue) :=
    (List.Sublist.refl _).append (List.erase_sublist v _)
  have hperm := perm_push_front bm.fifoQueue (bm.lruQueue.erase v) p
  have hle := length_mapErase_add_one bm.bufferMapping v hknd hvk
  simp only [BufferManager.removePage]
  rw [if_neg (by decide), hgetD, victimScan_eraseIdx _ _ _ _ hscan,
    mapInsert_of_not_mem _ _ _ hpke]
  refine ⟨?_, ?_, ?_, ?_, ?_⟩
  · show (mapErase bm.bufferMapping v ++ [(p, _)]).length ≤ bm.pageCount
    rw [List.length_append]
    simp only [List.length_singleton]
    omega
  · show (keys (mapErase bm.bufferMapping v ++ [(p, _)])).Nodup
    rw [keys_append, keys_singleton]
    exact List.nodup_append.mpr ⟨nodup_keys_mapErase _ _ hknd,
      List.nodup_singleton p, List.disjoint_singleton.mpr hpke⟩
  · refine hperm.nodup_iff.mpr (List.nodup_cons.mpr ⟨?_, hqnd.sublist hsub⟩)
    exact fun h => hpq (hsub.subset h)
  · intro id hid
    show id ∈ keys (mapErase bm.bufferMapping v ++ [(p, _)])
    rw [keys_append, keys_singleton]
    rcases List.mem_append.mp hid with hfp | hle2
    · rcases List.mem_append.mp hfp with hf | hp
      · have hne : id ≠ v := fun he => hvnf (he ▸ hf)
        exact List.mem_append_left _
          ((mem_keys_mapErase _ _ _).mpr ⟨hq2k id (List.mem_append_left _ hf), hne⟩)
      · exact List.mem_append_right _ hp
    · obtain ⟨hne, hl⟩ := hlnd.mem_erase_iff.mp hle2
      exact List.mem_append_left _
        ((mem_keys_mapErase _ _ _).mpr ⟨hq2k id (List.mem_append_right _ hl), hne⟩)
  · intro id hid
    have hid2 : id ∈ keys (mapErase bm.bufferMapping v) ++ [p] := by
      have : id ∈ keys (mapErase bm.bufferMapping v ++ [(p, _)]) := hid
      rwa [keys_append, keys_singleton] at this
    rcases List.mem_append.mp hid2 with he | hp
    · obtain ⟨hkm, hne⟩ := (mem_keys_mapErase _ _ _).mp he
      rcases List.mem_append.mp (hk2q id hkm) with hf | hlru
      · exact List.mem_append_left _ (List.mem_append_left _ hf)
      · exact List.mem_append_right _ (hlnd.mem_erase_iff.mpr ⟨hne, hlru⟩)
    · rw [List.mem_singleton.mp hp]
      exact List.mem_append_left _ (List.mem_append_right _ (List.mem_singleton.mpr rfl))

theorem Inv_unfix_page (bm : BufferManager) (p : Nat) (d : Bool)
    (hInv : Inv bm) : Inv (bm.unfix_page p d) := by
  obtain ⟨hlen, hknd, hqnd, hq2k, hk2q⟩ := hInv
  simp only [BufferManager.unfix_page]
  by_cases hl : p ∈ bm.lruQueue
  · rw [if_pos hl]
    have hperm := perm_refresh_right bm.fifoQueue bm.lruQueue p hl
    refine ⟨?_, ?_, ?_, ?_, ?_⟩
    · simpa [length_mapUpdate] using hlen
    · simpa [keys_mapUpdate] using hknd
    · exact hperm.nodup_iff.mpr hqnd
    · intro id hid
      simp only [keys_mapUpdate]
      exact hq2k id (hperm.mem_iff.mp hid)
    · intro id hid
      simp only [keys_mapUpdate] at hid
      exact hperm.mem_iff.mpr (hk2q id hid)
  · rw [if_neg hl]
    refine ⟨?_, ?_, hqnd, ?_, ?_⟩
    · simpa [length_mapUpdate] using hlen
    · simpa [keys_mapUpdate] using hknd
    · intro id hid
      simp only [keys_mapUpdate]
      exact hq2k id hid
    · intro id hid
      simp only [keys_mapUpdate] at hid
      exact hk2q id hid

theorem Inv_fix_page (disk : Nat → List Nat) (bm : BufferManager) (p : Nat)
    (e : Bool) (hInv : Inv bm) : Inv (bm.fix_page disk p e).state := by
  by_cases hsome : (mapFind bm.bufferMapping p).isSome
  · rw [fix_page_hit disk bm p e hsome]
    exact Inv_updateExistingPage bm p e hInv ((mapFind_isSome_iff _ _).mp hsome)
  · have hmiss : mapFind bm.bufferMapping p = none :=
      Option.not_isSome_iff_eq_none.mp hsome
    by_cases hfull : bm.bufferMapping.length = bm.pageCount
    · cases hF : victimScan bm.bufferMapping bm.fifoQueue with
      | some pr =>
        obtain ⟨i, v⟩ := pr
        rw [fix_page_evict_fifo disk bm p e i v hmiss hfull hF]
        exact Inv_removePage_fifo disk bm p e i v hInv hmiss hF
      | none =>
        cases hL : victimScan bm.bufferMapping bm.lruQueue with
        | some pr =>
          obtain ⟨i, v⟩ := pr
          rw [fix_page_evict_lru disk bm p e i v hmiss hfull hF hL]
          exact Inv_removePage_lru disk bm p e i v hInv hmiss hL
        | none =>
          rw [fix_page_full disk bm p e hmiss hfull hF hL]
          exact hInv
    · rw [fix_page_add disk bm p e hmiss hfull]
      exact Inv_addNewPage disk bm p e hInv hmiss (lt_of_le_of_ne hInv.1 hfull)

theorem pageCount_updateExistingPage (bm : BufferManager) (p : Nat) (e : Bool) :
    (bm.updateExistingPage p e).pageCount = bm.pageCount := by
  simp only [BufferManager.updateExistingPage]
  split <;> rfl

theorem pageCount_unfix_page (bm : BufferManager) (p : Nat) (d : Bool) :
    (bm.unfix_page p d).pageCount = bm.pageCount := by
  simp only [BufferManager.unfix_page]
  split <;> rfl

theorem pageCount_fix_page (disk : Nat → List Nat) (bm : BufferManager)
    (p : Nat) (e : Bool) :
    (bm.fix_page disk p e).state.pageCount = bm.pageCount := by
  by_cases hsome : (mapFind bm.bufferMapping p).isSome
  · rw [fix_page_hit disk bm p e hsome]
    exact pageCount_updateExistingPage bm p e
  · have hmiss : mapFind bm.bufferMapping p = none :=
      Option.not_isSome_iff_eq_none.mp hsome
    by_cases hfull : bm.bufferMapping.length = bm.pageCount
    · cases hF : victimScan bm.bufferMapping bm.fifoQueue with
      | some pr =>
        obtain ⟨i, v⟩ := pr
        rw [fix_page_evict_fifo disk bm p e i v hmiss hfull hF]
        simp only [BufferManager.removePage]
        rfl
      | none =>
        cases hL : victimScan bm.bufferMapping bm.lruQueue with
        | some pr =>
          obtain ⟨i, v⟩ := pr
          rw [fix_page_evict_lru disk bm p e i v hmiss hfull hF hL]
          simp only [BufferManager.removePage]
          rfl
        | none =>
          rw [fix_page_full disk bm p e hmiss hfull hF hL]
    · rw [fix_page_add disk bm p e hmiss hfull]
      rfl

theorem Inv_runOp (disk : Nat → List Nat) (bm : BufferManager) (op : Op)
    (hInv : Inv bm) : Inv (runOp disk bm op) := by
  cases op with
  | fixOp p e => exact Inv_fix_page disk bm p e hInv
  | unfixOp p d => exact Inv_unfix_page bm p d hInv

theorem pageCount_runOp (disk : Nat → List Nat) (bm : BufferManager) (op : Op) :
    (runOp disk bm op).pageCount = bm.pageCount := by
  cases op with
  | fixOp p e => exact pageCount_fix_page disk bm p e
  | unfixOp p d => exact pageCount_unfix_page bm p d

theorem Inv_runOps (disk : Nat → List Nat) (ops : List Op) (bm : BufferManager)
    (hInv : Inv bm) : Inv (runOps disk bm ops) := by
  induction ops generalizing bm with
  | nil => exact hInv
  | cons op rest ih =>
    exact ih (runOp disk bm op) (Inv_runOp disk bm op hInv)

theorem pageCount_runOps (disk : Nat → List Nat) (ops : List Op)
    (bm : BufferManager) : (runOps disk bm ops).pageCount = bm.pageCount := by
  induction ops generalizing bm with
  | nil => rfl
  | cons op rest ih =>
    exact (ih (runOp disk bm op)).trans (pageCount_runOp disk bm op)

theorem Inv_new (page_size page_count : Nat) :
    Inv (BufferManager.new page_size page_count) := by
  refine ⟨?_, ?_, ?_, ?_, ?_⟩ <;> simp [BufferManager.new, keys]

theorem mapFind_some_mem (m : Mapping) (id : Nat) (f : BufferFrame)
    (h : mapFind m id = some f) : (id, f) ∈ m := by
  induction m with
  | nil => simp [mapFind] at h
  | cons p rest ih =>
    obtain ⟨k, g⟩ := p
    rw [mapFind_cons] at h
    by_cases hk : k = id
    · rw [if_pos hk] at h
      subst hk
      rw [Option.some.inj h]
      exact List.mem_cons_self _ _
    · rw [if_neg hk] at h
      exact List.mem_cons_of_mem _ (ih h)

theorem counterOf_ne_zero_of_pinned (m : Mapping)
    (h : ∀ pr ∈ m, 0 < (Prod.snd pr).counter) (id : Nat) :
    counterOf m id ≠ 0 := by
  unfold counterOf
  cases hf : mapFind m id with
  | none => simp
  | some f =>
    have := h (id, f) (mapFind_some_mem m id f hf)
    simp only at this ⊢
    omega

theorem bufferMapping_updateExistingPage (bm : BufferManager) (p : Nat) (e : Bool) :
    (bm.updateExistingPage p e).bufferMapping
      = mapUpdate bm.bufferMapping p (fun f => (f.incCounter).lockPage e) := by
  simp only [BufferManager.updateExistingPage]
  split <;> rfl

theorem queues_updateExistingPage_mem (bm : BufferManager) (p : Nat) (e : Bool)
    (hl : p ∈ bm.lruQueue) :
    (bm.updateExistingPage p e).fifoQueue = bm.fifoQueue ∧
    (bm.updateExistingPage p e).lruQueue = bm.lruQueue.erase p ++ [p] := by
  simp only [BufferManager.updateExistingPage]
  rw [if_pos hl]
  exact ⟨rfl, rfl⟩

theorem queues_updateExistingPage_not_mem (bm : BufferManager) (p : Nat) (e : Bool)
    (hl : p ∉ bm.lruQueue) :
    (bm.updateExistingPage p e).fifoQueue = bm.fifoQueue.erase p ∧
    (bm.updateExistingPage p e).lruQueue = bm.lruQueue ++ [p] := by
  simp only [BufferManager.updateExistingPage]
  rw [if_neg hl]
  exact ⟨rfl, rfl⟩

theorem bufferMapping_removePage_fifo (disk : Nat → List Nat)
    (bm : BufferManager) (p : Nat) (e : Bool) (i v : Nat)
    (hgetD : bm.fifoQueue.getD i 0 = v) :
    (bm.removePage disk p i e true).1.bufferMapping
      = mapInsert (mapErase bm.bufferMapping v) p
          ((((BufferFrame.new p bm.pageSize).incCounter).lockPage e).readDisk disk).1 := by
  simp only [BufferManager.removePage]
  rw [if_pos trivial, hgetD]

theorem bufferMapping_removePage_lru (disk : Nat → List Nat)
    (bm : BufferManager) (p : Nat) (e : Bool) (i v : Nat)
    (hgetD : bm.lruQueue.getD i 0 = v) :
    (bm.removePage disk p i e false).1.bufferMapping
      = mapInsert (mapErase bm.bufferMapping v) p
          ((((BufferFrame.new p bm.pageSize).incCounter).lockPage e).readDisk disk).1 := by
  simp only [BufferManager.removePage]
  rw [if_neg (by decide), hgetD]

/-! ### Claim theorems -/

/-- C1: after any finite sequence of fix/unfix operations starting from a
newly constructed pool, the page-id map has at most `page_count` entries, the
FIFO and LRU queues are disjoint, every id in either queue is a key of the
map, and every key of the map appears in exactly one of the two queues. -/
theorem c1_pool_invariants_after_any_ops (page_size page_count : Nat)
    (disk : Nat → List Nat) (ops : List Op) :
    (runOps disk (BufferManager.new page_size page_count) ops).bufferMapping.length
        ≤ page_count ∧
    (∀ id, ¬(id ∈ (runOps disk (BufferManager.new page_size page_count) ops).fifoQueue ∧
        id ∈ (runOps disk (BufferManager.new page_size page_count) ops).lruQueue)) ∧
    (∀ id, (id ∈ (runOps disk (BufferManager.new page_size page_count) ops).fifoQueue ∨
        id ∈ (runOps disk (BufferManager.new page_size page_count) ops).lruQueue) →
      id ∈ keys (runOps disk (BufferManager.new page_size page_count) ops).bufferMapping) ∧
    (∀ id ∈ keys (runOps disk (BufferManager.new page_size page_count) ops).bufferMapping,
      (id ∈ (runOps disk (BufferManager.new page_size page_count) ops).fifoQueue ∧
        id ∉ (runOps disk (BufferManager.new page_size page_count) ops).lruQueue) ∨
      (id ∉ (runOps disk (BufferManager.new page_size page_count) ops).fifoQueue ∧
        id ∈ (runOps disk (BufferManager.new page_size page_count) ops).lruQueue)) := by
  obtain ⟨hlen, hknd, hqnd, hq2k, hk2q⟩ :=
    Inv_runOps disk ops _ (Inv_new page_size page_count)
  have hpc : (runOps disk (BufferManager.new page_size page_count) ops).pageCount
      = page_count := pageCount_runOps disk ops _
  have hdisj := (List.nodup_append.mp hqnd).2.2
  refine ⟨hlen.trans_eq hpc, ?_, ?_, ?_⟩
  · intro id ⟨hf, hl⟩
    exact hdisj hf hl
  · intro id h
    rcases h with hf | hl
    · exact hq2k id (List.mem_append_left _ hf)
    · exact hq2k id (List.mem_append_right _ hl)
  · intro id hid
    rcases List.mem_append.mp (hk2q id hid) with hf | hl
    · exact Or.inl ⟨hf, fun hl => hdisj hf hl⟩
    · exact Or.inr ⟨fun hf => hdisj hf hl, hl⟩

/-- C1 witness: after `Fix(1); Unfix(1); Fix(1)` on pool `(16, 3)` the map
has at most 3 entries and the promoted page 1 — a member of the LRU queue —
is a key of the map. -/
theorem c1_pool_invariants_after_any_ops_witness :
    (runOps diskZero (BufferManager.new 16 3)
      [.fixOp 1 false, .unfixOp 1 false, .fixOp 1 false]).bufferMapping.length
      ≤ 3 ∧
    1 ∈ keys (runOps diskZero (BufferManager.new 16 3)
      [.fixOp 1 false, .unfixOp 1 false, .fixOp 1 false]).bufferMapping := by
  have h := c1_pool_invariants_after_any_ops 16 3 diskZero
    [.fixOp 1 false, .unfixOp 1 false, .fixOp 1 false]
  exact ⟨h.1, h.2.2.1 1 (Or.inr (by decide))⟩

/-- C4: refuted on the code — `unlockPage` assigns `mIsDirty = is_dirty`
instead of merging, so an `unfix` with `mark_dirty = false` clears a dirty
flag that an earlier `unfix(true)` had set.  On pool `(16, 3)`: after
`Fix(1,X); Unfix(1,true)` page 1 is dirty; after a further
`Fix(1,S); Unfix(1,false)` it is clean again. -/
theorem c4_unfix_overwrites_dirty_flag :
    (mapFind (runOps diskZero (BufferManager.new 16 3)
        [.fixOp 1 true, .unfixOp 1 true]).bufferMapping 1).map
        BufferFrame.mIsDirty = some true ∧
    (mapFind (runOps diskZero (BufferManager.new 16 3)
        [.fixOp 1 true, .unfixOp 1 true, .fixOp 1 false,
          .unfixOp 1 false]).bufferMapping 1).map
        BufferFrame.mIsDirty = some false :=
  ⟨rfl, rfl⟩

/-- C7: refuted on the code — `unfix_page` decrements the pin counter
unconditionally and raises no error, so a second `unfix` of page 1 drives its
pin count to -1. -/
theorem c7_unfix_underflow_no_error :
    counterOf (runOps diskZero (BufferManager.new 16 3)
      [.fixOp 1 false, .unfixOp 1 false, .unfixOp 1 false]).bufferMapping 1
      = -1 :=
  rfl

/-- C8: refuted on the code — on pool `(4, 1)` the eviction triggered by
`Fix(2, shared)` calls the victim's `writeDisk` with pin count 0 and no lock
held (`writeDiskEv 1 0 false`), and the subsequent load of page 2 calls
`readDisk` under a shared, not exclusive, lock (`readDiskEv 2 1 false`). -/
theorem c8_disk_calls_violate_lock_pin_preconditions :
    (cleanPool.fix_page diskZero 2 false).events =
      [DiskEv.writeDiskEv 1 0 false, DiskEv.readDiskEv 2 1 false] :=
  rfl

/-- C3 counterexample: on pool `(4, 1)` page 1 is resident, unpinned and
clean (`mIsDirty = false`), yet the eviction performed by `Fix(2)` writes
page 1 to disk — a clean victim does cause a disk write. -/
theorem c3_clean_victim_written_counterexample :
    (mapFind cleanPool.bufferMapping 1).map BufferFrame.mIsDirty = some false ∧
    DiskEv.writeDiskEv 1 0 false ∈ (cleanPool.fix_page diskZero 2 false).events :=
  ⟨rfl, List.mem_cons_self _ _⟩

/-- C6: when the map holds `page_count` entries, every resident frame is
pinned (counter > 0) and the requested page is not resident, `fix_page`
throws buffer-full and returns with the entire pool state unchanged and no
disk I/O. -/
theorem c6_buffer_full_leaves_state_unchanged (disk : Nat → List Nat)
    (bm : BufferManager) (p : Nat) (e : Bool)
    (hfull : bm.bufferMapping.length = bm.pageCount)
    (hpinned : ∀ pr ∈ bm.bufferMapping, 0 < (Prod.snd pr).counter)
    (hmiss : mapFind bm.bufferMapping p = none) :
    bm.fix_page disk p e = { bufferFull := true, state := bm, events := [] } := by
  have hne := counterOf_ne_zero_of_pinned bm.bufferMapping hpinned
  have hF : victimScan bm.bufferMapping bm.fifoQueue = none :=
    (victimScan_eq_none_iff _ _).mpr (fun id _ => hne id)
  have hL : victimScan bm.bufferMapping bm.lruQueue = none :=
    (victimScan_eq_none_iff _ _).mpr (fun id _ => hne id)
  exact fix_page_full disk bm p e hmiss hfull hF hL

/-- C2: victim selection scans the FIFO queue from its head and picks the
first id whose frame has counter 0 (`getPageIndexToRemove true` returns its
index and writes it back); when no FIFO entry qualifies, it scans the LRU
queue likewise; when neither queue yields a candidate, `fix_page` of a
non-resident page on a full pool throws buffer-full.  Every selected victim
has pin count exactly zero. -/
theorem c2_victim_selection_first_unpinned (disk : Nat → List Nat)
    (bm : BufferManager) (page_id : Nat) (e : Bool) :
    (∀ i v, victimScan bm.bufferMapping bm.fifoQueue = some (i, v) →
      v ∈ bm.fifoQueue ∧ bm.fifoQueue.getD i 0 = v ∧
      counterOf bm.bufferMapping v = 0 ∧
      (∀ j, j < i → counterOf bm.bufferMapping (bm.fifoQueue.getD j 0) ≠ 0) ∧
      bm.getPageIndexToRemove true
        = (some i, [(frameOf bm.bufferMapping v).writeDisk])) ∧
    (victimScan bm.bufferMapping bm.fifoQueue = none →
      bm.getPageIndexToRemove true = (none, []) ∧
      ∀ i v, victimScan bm.bufferMapping bm.lruQueue = some (i, v) →
        v ∈ bm.lruQueue ∧ bm.lruQueue.getD i 0 = v ∧
        counterOf bm.bufferMapping v = 0 ∧
        (∀ j, j < i → counterOf bm.bufferMapping (bm.lruQueue.getD j 0) ≠ 0) ∧
        bm.getPageIndexToRemove false
          = (some i, [(frameOf bm.bufferMapping v).writeDisk])) ∧
    (victimScan bm.bufferMapping bm.fifoQueue = none →
      victimScan bm.bufferMapping bm.lruQueue = none →
      mapFind bm.bufferMapping page_id = none →
      bm.bufferMapping.length = bm.pageCount →
      bm.fix_page disk page_id e
        = { bufferFull := true, state := bm, events := [] }) := by
  refine ⟨?_, ?_, ?_⟩
  · intro i v h
    obtain ⟨_, h2, h3⟩ := victimScan_some _ _ _ _ h
    exact ⟨victimScan_mem _ _ _ _ h, h2, h3, victimScan_min _ _ _ _ h,
      getPageIndexToRemove_fifo_some bm i v h⟩
  · intro hF
    refine ⟨getPageIndexToRemove_fifo_none bm hF, ?_⟩
    intro i v h
    obtain ⟨_, h2, h3⟩ := victimScan_some _ _ _ _ h
    exact ⟨victimScan_mem _ _ _ _ h, h2, h3, victimScan_min _ _ _ _ h,
      getPageIndexToRemove_lru_some bm i v h⟩
  · intro hF hL hmiss hfull
    exact fix_page_full disk bm page_id e hmiss hfull hF hL

/-- C2 witness: in a pool where page 1 is pinned and page 2 is unpinned with
FIFO order `[1, 2]`, the selected victim (page 2) has pin count zero; and a
full pool of one pinned page rejects `Fix(9)` with buffer-full. -/
theorem c2_victim_selection_first_unpinned_witness :
    counterOf (runOps diskZero (BufferManager.new 16 3)
      [.fixOp 1 false, .fixOp 2 false, .unfixOp 2 false]).bufferMapping 2 = 0 ∧
    (runOps diskZero (BufferManager.new 16 1)
        [.fixOp 1 false]).fix_page diskZero 9 false
      = { bufferFull := true
          state := runOps diskZero (BufferManager.new 16 1) [.fixOp 1 false]
          events := [] } := by
  constructor
  · exact ((c2_victim_selection_first_unpinned diskZero
      (runOps diskZero (BufferManager.new 16 3)
        [.fixOp 1 false, .fixOp 2 false, .unfixOp 2 false]) 9 false).1
      1 2 (by decide)).2.2.1
  · exact (c2_victim_selection_first_unpinned diskZero
      (runOps diskZero (BufferManager.new 16 1) [.fixOp 1 false]) 9 false).2.2
      (by decide) (by decide) (by decide) (by decide)

/-- C3 (amended): during eviction the victim's bytes are always written back
to disk — whether or not its dirty flag is set — and the write-back event
precedes the load of the new page; the victim's map entry is gone from the
resulting pool.  (The claim's clean-victim exemption fails on the code:
`getPageIndexToRemove` calls `writeDisk` unconditionally.) -/
theorem c3_eviction_always_writes_back (disk : Nat → List Nat)
    (bm : BufferManager) (p : Nat) (e : Bool) (hInv : Inv bm)
    (hmiss : mapFind bm.bufferMapping p = none)
    (hfull : bm.bufferMapping.length = bm.pageCount) :
    (∀ i v, victimScan bm.bufferMapping bm.fifoQueue = some (i, v) →
      (bm.fix_page disk p e).events
        = [(frameOf bm.bufferMapping v).writeDisk, DiskEv.readDiskEv p 1 e] ∧
      v ∉ keys (bm.fix_page disk p e).state.bufferMapping) ∧
    (victimScan bm.bufferMapping bm.fifoQueue = none →
      ∀ i v, victimScan bm.bufferMapping bm.lruQueue = some (i, v) →
      (bm.fix_page disk p e).events
        = [(frameOf bm.bufferMapping v).writeDisk, DiskEv.readDiskEv p 1 e] ∧
      v ∉ keys (bm.fix_page disk p e).state.bufferMapping) := by
  obtain ⟨hlen, hknd, hqnd, hq2k, hk2q⟩ := hInv
  have hpk : p ∉ keys bm.bufferMapping := (mapFind_eq_none_iff _ _).mp hmiss
  constructor
  · intro i v h
    obtain ⟨_, hgetD, _⟩ := victimScan_some _ _ _ _ h
    have hvk : v ∈ keys bm.bufferMapping :=
      hq2k v (List.mem_append_left _ (victimScan_mem _ _ _ _ h))
    have hpv : p ≠ v := fun he => hpk (he ▸ hvk)
    have hpke : p ∉ keys (mapErase bm.bufferMapping v) := by
      rw [mem_keys_mapErase]; tauto
    rw [fix_page_evict_fifo disk bm p e i v hmiss hfull h]
    constructor
    · cases e <;> rfl
    · show v ∉ keys (bm.removePage disk p i e true).1.bufferMapping
      rw [bufferMapping_removePage_fifo disk bm p e i v hgetD,
        mapInsert_of_not_mem _ _ _ hpke, keys_append, keys_singleton]
      intro hv
      rcases List.mem_append.mp hv with hv | hv
      · exact ((mem_keys_mapErase _ _ _).mp hv).2 rfl
      · exact hpv (List.mem_singleton.mp hv).symm
  · intro hF i v h
    obtain ⟨_, hgetD, _⟩ := victimScan_some _ _ _ _ h
    have hvk : v ∈ keys bm.bufferMapping :=
      hq2k v (List.mem_append_right _ (victimScan_mem _ _ _ _ h))
    have hpv : p ≠ v := fun he => hpk (he ▸ hvk)
    have hpke : p ∉ keys (mapErase bm.bufferMapping v) := by
      rw [mem_keys_mapErase]; tauto
    rw [fix_page_evict_lru disk bm p e i v hmiss hfull hF h]
    constructor
    · cases e <;> rfl
    · show v ∉ keys (bm.removePage disk p i e false).1.bufferMapping
      rw [bufferMapping_removePage_lru disk bm p e i v hgetD,
        mapInsert_of_not_mem _ _ _ hpke, keys_append, keys_singleton]
      intro hv
      rcases List.mem_append.mp hv with hv | hv
      · exact ((mem_keys_mapErase _ _ _).mp hv).2 rfl
      · exact hpv (List.mem_singleton.mp hv).symm

/-- C3 witness: evicting the clean, unpinned page 1 of `cleanPool` for
`Fix(2, shared)` emits exactly a write-back of page 1 followed by the read of
page 2, and page 1 leaves the map. -/
theorem c3_eviction_always_writes_back_witness :
    (cleanPool.fix_page diskZero 2 false).events
      = [(frameOf cleanPool.bufferMapping 1).writeDisk,
          DiskEv.readDiskEv 2 1 false] ∧
    1 ∉ keys (cleanPool.fix_page diskZero 2 false).state.bufferMapping := by
  have h := (c3_eviction_always_writes_back diskZero cleanPool 2 false
    (by decide) (by decide) (by decide)).1 0 1 (by decide)
  exact h

/-- C5: on a fix hit the pin counter is incremented and the queue transition
rule applies: a page currently in FIFO is removed from FIFO and appended to
the LRU tail (promotion), a page currently in LRU is removed and re-appended
at the LRU tail; in either case the page ends up in LRU, so subsequent
references keep it there. -/
theorem c5_fix_hit_promotion_and_refresh (disk : Nat → List Nat)
    (bm : BufferManager) (p : Nat) (e : Bool) (hInv : Inv bm)
    (hmem : p ∈ keys bm.bufferMapping) :
    (bm.fix_page disk p e).bufferFull = false ∧
    (∀ f, mapFind bm.bufferMapping p = some f →
      (mapFind (bm.fix_page disk p e).state.bufferMapping p).map
        BufferFrame.counter = some (f.counter + 1)) ∧
    (p ∈ bm.fifoQueue →
      (bm.fix_page disk p e).state.fifoQueue = bm.fifoQueue.erase p ∧
      (bm.fix_page disk p e).state.lruQueue = bm.lruQueue ++ [p]) ∧
    (p ∈ bm.lruQueue →
      (bm.fix_page disk p e).state.fifoQueue = bm.fifoQueue ∧
      (bm.fix_page disk p e).state.lruQueue = bm.lruQueue.erase p ++ [p]) ∧
    p ∈ (bm.fix_page disk p e).state.lruQueue := by
  obtain ⟨hlen, hknd, hqnd, hq2k, hk2q⟩ := hInv
  have hdisj := (List.nodup_append.mp hqnd).2.2
  have hsome : (mapFind bm.bufferMapping p).isSome :=
    (mapFind_isSome_iff _ _).mpr hmem
  rw [fix_page_hit disk bm p e hsome]
  refine ⟨rfl, ?_, ?_, ?_, ?_⟩
  · intro f hf
    show (mapFind (bm.updateExistingPage p e).bufferMapping p).map _ = _
    rw [bufferMapping_updateExistingPage, mapFind_mapUpdate_self, hf]
    rfl
  · intro hpf
    have hpl : p ∉ bm.lruQueue := fun hl => hdisj hpf hl
    exact queues_updateExistingPage_not_mem bm p e hpl
  · intro hpl
    exact queues_updateExistingPage_mem bm p e hpl
  · by_cases hpl : p ∈ bm.lruQueue
    · rw [(queues_updateExistingPage_mem bm p e hpl).2]
      exact List.mem_append_right _ (List.mem_singleton.mpr rfl)
    · rw [(queues_updateExistingPage_not_mem bm p e hpl).2]
      exact List.mem_append_right _ (List.mem_singleton.mpr rfl)

/-- C5 witness: re-fixing page 1, which sits in the FIFO queue of the pool
`(16, 3)` after `Fix(1); Unfix(1)`, succeeds and promotes it into the LRU
queue. -/
theorem c5_fix_hit_promotion_and_refresh_witness :
    ((runOps diskZero (BufferManager.new 16 3)
      [.fixOp 1 false, .unfixOp 1 false]).fix_page diskZero 1 false).bufferFull
      = false ∧
    1 ∈ ((runOps diskZero (BufferManager.new 16 3)
      [.fixOp 1 false, .unfixOp 1 false]).fix_page diskZero 1 false).state.lruQueue := by
  have h := c5_fix_hit_promotion_and_refresh diskZero
    (runOps diskZero (BufferManager.new 16 3) [.fixOp 1 false, .unfixOp 1 false])
    1 false (by decide) (by decide)
  exact ⟨h.1, h.2.2.2.2⟩

/-- C9: on every miss path of `fix_page` — free slot, FIFO-victim eviction,
or LRU-victim eviction — the newly loaded page id is appended to the tail of
the FIFO queue and ends up in no other queue. -/
theorem c9_miss_appends_new_page_to_fifo_tail (disk : Nat → List Nat)
    (bm : BufferManager) (p : Nat) (e : Bool) (hInv : Inv bm)
    (hmiss : mapFind bm.bufferMapping p = none) :
    (bm.bufferMapping.length ≠ bm.pageCount →
      (bm.fix_page disk p e).state.fifoQueue = bm.fifoQueue ++ [p] ∧
      (bm.fix_page disk p e).state.lruQueue = bm.lruQueue ∧
      p ∉ (bm.fix_page disk p e).state.lruQueue) ∧
    (∀ i v, bm.bufferMapping.length = bm.pageCount →
      victimScan bm.bufferMapping bm.fifoQueue = some (i, v) →
      (bm.fix_page disk p e).state.fifoQueue = bm.fifoQueue.erase v ++ [p] ∧
      (bm.fix_page disk p e).state.lruQueue = bm.lruQueue ∧
      p ∉ (bm.fix_page disk p e).state.lruQueue) ∧
    (∀ i v, bm.bufferMapping.length = bm.pageCount →
      victimScan bm.bufferMapping bm.fifoQueue = none →
      victimScan bm.bufferMapping bm.lruQueue = some (i, v) →
      (bm.fix_page disk p e).state.fifoQueue = bm.fifoQueue ++ [p] ∧
      (bm.fix_page disk p e).state.lruQueue = bm.lruQueue.erase v ∧
      p ∉ (bm.fix_page disk p e).state.lruQueue) := by
  obtain ⟨hlen, hknd, hqnd, hq2k, hk2q⟩ := hInv
  have hpk : p ∉ keys bm.bufferMapping := (mapFind_eq_none_iff _ _).mp hmiss
  have hpq : p ∉ bm.fifoQueue ++ bm.lruQueue := fun h => hpk (hq2k p h)
  have hpl : p ∉ bm.lruQueue := fun h => hpq (List.mem_append_right _ h)
  refine ⟨?_, ?_, ?_⟩
  · intro hne
    rw [fix_page_add disk bm p e hmiss hne]
    exact ⟨rfl, rfl, hpl⟩
  · intro i v hfull h
    rw [fix_page_evict_fifo disk bm p e i v hmiss hfull h]
    refine ⟨?_, rfl, hpl⟩
    show (bm.removePage disk p i e true).1.fifoQueue = _
    simp only [BufferManager.removePage]
    rw [if_pos trivial]
    show bm.fifoQueue.eraseIdx i ++ [p] = _
    rw [victimScan_eraseIdx _ _ _ _ h]
  · intro i v hfull hF h
    rw [fix_page_evict_lru disk bm p e i v hmiss hfull hF h]
    refine ⟨rfl, ?_, ?_⟩
    · show (bm.removePage disk p i e false).1.lruQueue = _
      simp only [BufferManager.removePage]
      rw [if_neg (by decide)]
      show bm.lruQueue.eraseIdx i = _
      rw [victimScan_eraseIdx _ _ _ _ h]
    · show p ∉ (bm.removePage disk p i e false).1.lruQueue
      simp only [BufferManager.removePage]
      rw [if_neg (by decide)]
      show p ∉ bm.lruQueue.eraseIdx i
      rw [victimScan_eraseIdx _ _ _ _ h]
      exact fun hmem => hpl ((List.erase_sublist v bm.lruQueue).subset hmem)

/-- C9 witness: fixing the non-resident page 2 into the pool `(16, 3)` that
holds only page 1 appends 2 to the FIFO tail and leaves the LRU queue
empty. -/
theorem c9_miss_appends_new_page_to_fifo_tail_witness :
    ((runOps diskZero (BufferManager.new 16 3)
        [.fixOp 1 false]).fix_page diskZero 2 false).state.fifoQueue
      = (runOps diskZero (BufferManager.new 16 3) [.fixOp 1 false]).fifoQueue
        ++ [2] ∧
    2 ∉ ((runOps diskZero (BufferManager.new 16 3)
        [.fixOp 1 false]).fix_page diskZero 2 false).state.lruQueue := by
  have h := (c9_miss_appends_new_page_to_fifo_tail diskZero
    (runOps diskZero (BufferManager.new 16 3) [.fixOp 1 false]) 2 false
    (by decide) (by decide)).1 (by decide)
  exact ⟨h.1, h.2.2⟩

/-- C10: a fix hit performs no disk I/O and leaves the frame's data bytes,
dirty flag and identity unchanged; the pin counter is incremented, every
other map entry and the key set are untouched, and the two queues keep the
same multiset of ids (only the hit page's position changes). -/
theorem c10_fix_hit_no_disk_io (disk : Nat → List Nat) (bm : BufferManager)
    (p : Nat) (e : Bool) (f : BufferFrame) (hInv : Inv bm)
    (hhit : mapFind bm.bufferMapping p = some f) :
    (bm.fix_page disk p e).bufferFull = false ∧
    (bm.fix_page disk p e).events = [] ∧
    (mapFind (bm.fix_page disk p e).state.bufferMapping p).map
      BufferFrame.data = some f.data ∧
    (mapFind (bm.fix_page disk p e).state.bufferMapping p).map
      BufferFrame.mIsDirty = some f.mIsDirty ∧
    (mapFind (bm.fix_page disk p e).state.bufferMapping p).map
      BufferFrame.pageId = some f.pageId ∧
    (mapFind (bm.fix_page disk p e).state.bufferMapping p).map
      BufferFrame.counter = some (f.counter + 1) ∧
    (∀ q, q ≠ p →
      mapFind (bm.fix_page disk p e).state.bufferMapping q
        = mapFind bm.bufferMapping q) ∧
    keys (bm.fix_page disk p e).state.bufferMapping = keys bm.bufferMapping ∧
    ((bm.fix_page disk p e).state.fifoQueue ++
        (bm.fix_page disk p e).state.lruQueue).Perm
      (bm.fifoQueue ++ bm.lruQueue) := by
  obtain ⟨hlen, hknd, hqnd, hq2k, hk2q⟩ := hInv
  have hdisj := (List.nodup_append.mp hqnd).2.2
  have hsome : (mapFind bm.bufferMapping p).isSome := by rw [hhit]; rfl
  have hmem : p ∈ keys bm.bufferMapping := (mapFind_isSome_iff _ _).mp hsome
  rw [fix_page_hit disk bm p e hsome]
  refine ⟨rfl, rfl, ?_, ?_, ?_, ?_, ?_, ?_, ?_⟩
  · show (mapFind (bm.updateExistingPage p e).bufferMapping p).map _ = _
    rw [bufferMapping_updateExistingPage, mapFind_mapUpdate_self, hhit]
    rfl
  · show (mapFind (bm.updateExistingPage p e).bufferMapping p).map _ = _
    rw [bufferMapping_updateExistingPage, mapFind_mapUpdate_self, hhit]
    rfl
  · show (mapFind (bm.updateExistingPage p e).bufferMapping p).map _ = _
    rw [bufferMapping_updateExistingPage, mapFind_mapUpdate_self, hhit]
    rfl
  · show (mapFind (bm.updateExistingPage p e).bufferMapping p).map _ = _
    rw [bufferMapping_updateExistingPage, mapFind_mapUpdate_self, hhit]
    rfl
  · intro q hq
    show mapFind (bm.updateExistingPage p e).bufferMapping q = _
    rw [bufferMapping_updateExistingPage, mapFind_mapUpdate_ne _ _ _ _ hq]
  · show keys (bm.updateExistingPage p e).bufferMapping = _
    rw [bufferMapping_updateExistingPage, keys_mapUpdate]
  · by_cases hpl : p ∈ bm.lruQueue
    · obtain ⟨h1, h2⟩ := queues_updateExistingPage_mem bm p e hpl
      rw [h1, h2]
      exact perm_refresh_right bm.fifoQueue bm.lruQueue p hpl
    · have hpf : p ∈ bm.fifoQueue := by
        rcases List.mem_append.mp (hk2q p hmem) with h | h
        · exact h
        · exact absurd h hpl
      obtain ⟨h1, h2⟩ := queues_updateExistingPage_not_mem bm p e hpl
      rw [h1, h2]
      exact perm_promote bm.fifoQueue bm.lruQueue p hpf

/-- C10 witness: re-fixing the resident page 1 of the pool `(16, 3)` after
`Fix(1); Unfix(1)` throws nothing, performs no disk call, and keeps the
frame's bytes and clean dirty flag. -/
theorem c10_fix_hit_no_disk_io_witness :
    ((runOps diskZero (BufferManager.new 16 3)
      [.fixOp 1 false, .unfixOp 1 false]).fix_page diskZero 1 true).events = [] ∧
    (mapFind ((runOps diskZero (BufferManager.new 16 3)
        [.fixOp 1 false, .unfixOp 1 false]).fix_page diskZero 1 true).state.bufferMapping
      1).map BufferFrame.mIsDirty = some false := by
  have h := c10_fix_hit_no_disk_io diskZero
    (runOps diskZero (BufferManager.new 16 3) [.fixOp 1 false, .unfixOp 1 false])
    1 true
    { pageId := 1, pageSize := 16, counter := 0, mIsExclusive := false,
      mIsDirty := false, data := [], heldExcl := false, sharedHolders := 0 }
    (by decide) (by decide)
  exact ⟨h.2.1, h.2.2.2.1⟩

/-- C6 witness: a pool of three pinned pages rejects `Fix(99)` with
buffer-full and is returned unchanged. -/
theorem c6_buffer_full_leaves_state_unchanged_witness :
    (runOps diskZero (BufferManager.new 16 3)
        [.fixOp 1 false, .fixOp 2 false, .fixOp 3 false]).fix_page diskZero 99 false
      = { bufferFull := true
          state := runOps diskZero (BufferManager.new 16 3)
            [.fixOp 1 false, .fixOp 2 false, .fixOp 3 false]
          events := [] } :=
  c6_buffer_full_leaves_state_unchanged diskZero
    (runOps diskZero (BufferManager.new 16 3)
      [.fixOp 1 false, .fixOp 2 false, .fixOp 3 false]) 99 false
    (by decide) (by decide) (by decide)

end BuzzDB
